import Mathlib

/-!
# User-level threads and spinlock of `user/thread.c`

A shallow embedding of the xv6 user-level thread library:

* `thread_create` is embedded by explicit state passing over a `World` that
  records every call made to an external collaborator (`malloc`, `clone`,
  the entry routine, `exit`, `free`), the allocator's outstanding blocks and
  the shared memory the entry routine works on. An invocation of the entry
  routine may hand control back, end the context with `exit`, or never end.
* `lock_init`, `lock_acquire`, `lock_release` are embedded over the single
  word of `lock_t`; the spin loop of `lock_acquire` is bounded by a number of
  exchange attempts, and interleavings of several execution contexts are
  sequences of atomic steps on the lock word.
-/

namespace XV6Thread

/-! ## ThreadManager: `thread_create` -/

/-- The constant `PGSIZE` of `user/thread.c`: one page, 4096 bytes. -/
def PGSIZE : Nat := 4096

/-- Width in bits of a user pointer on RISC-V xv6. -/
def PTR_BITS : Nat := 64

/-- Pointer arithmetic `(char*)p + n` on a `PTR_BITS`-bit address. -/
def ptr_add (p n : Nat) : Nat := (p + n) % 2 ^ PTR_BITS

/-- One call to an external collaborator made while `thread_create` runs. -/
inductive Event where
  | malloc (nbytes : Nat)
  | clone (stack : Nat)
  | run (arg : Nat)
  | exit (status : Int)
  | free (ptr : Nat)
  deriving DecidableEq, Repr

/-- The external collaborators whose answers `thread_create` branches on:
the pointer `malloc` returns for a request (0 is the null pointer) and the
`int` the kernel `clone` call returns for a stack address. -/
structure Env where
  malloc : Nat → Nat
  clone : Nat → Int

/-- The state `thread_create` runs in: the shared memory the entry routine
works on, the blocks the allocator has handed out and not got back, and the
log of calls to external collaborators. -/
structure World (σ : Type) where
  mem : σ
  heap : List Nat
  trace : List Event
  deriving DecidableEq

/-- How a call of `thread_create` ends: it returns an `int` to its caller, or
the execution context is ended by `exit` and nothing is returned, or control
stays for ever inside the entry routine and nothing is returned. -/
inductive Outcome where
  | returned (v : Int)
  | exited (status : Int)
  | diverged
  deriving DecidableEq, Repr

/-- How an invocation `(*start_routine)(arg)` ends: the routine returns to
its caller, leaving the shared memory `mem`; or it calls `exit(status)`
itself, leaving `mem`; or it never ends. -/
inductive RoutineEnd (σ : Type) where
  | returns (mem : σ)
  | exits (status : Int) (mem : σ)
  | spins

/-- The call `malloc(nbytes)`: logged, and a non-null result becomes an
outstanding block. -/
def malloc {σ : Type} (env : Env) (nbytes : Nat) (w : World σ) : Nat × World σ :=
  let p := env.malloc nbytes
  (p, { w with
          heap := if p = 0 then w.heap else p :: w.heap
          trace := w.trace ++ [Event.malloc nbytes] })

/-- The call `clone(stack)`: logged, the kernel's answer is returned. -/
def clone {σ : Type} (env : Env) (stack : Nat) (w : World σ) : Int × World σ :=
  (env.clone stack, { w with trace := w.trace ++ [Event.clone stack] })

/-- The call `exit(status)`: logged; control does not come back. -/
def exit {σ : Type} (status : Int) (w : World σ) : World σ :=
  { w with trace := w.trace ++ [Event.exit status] }

/-- The call `(*start_routine)(arg)`: logged. When the routine returns, the
caller goes on (`Except.ok`) in the memory the routine left; the routine's
`void*` result is discarded. When the routine calls `exit` itself or never
ends, control does not come back to the caller (`Except.error`, with how the
context ended and the world it ended in). -/
def call_routine {σ : Type} (start_routine : Nat → σ → RoutineEnd σ)
    (arg : Nat) (w : World σ) : Except (Outcome × World σ) (World σ) :=
  match start_routine arg w.mem with
  | RoutineEnd.returns m =>
    Except.ok { w with mem := m, trace := w.trace ++ [Event.run arg] }
  | RoutineEnd.exits status m =>
    Except.error (Outcome.exited status,
      exit status { w with mem := m, trace := w.trace ++ [Event.run arg] })
  | RoutineEnd.spins =>
    Except.error (Outcome.diverged, { w with trace := w.trace ++ [Event.run arg] })

/-- The call `free(ptr)`: logged, one outstanding block at `ptr` is given
back to the allocator. -/
def free {σ : Type} (ptr : Nat) (w : World σ) : World σ :=
  { w with heap := w.heap.erase ptr, trace := w.trace ++ [Event.free ptr] }

/-- The function `thread_create` of `user/thread.c`. -/
def thread_create {σ : Type} (env : Env) (start_routine : Nat → σ → RoutineEnd σ)
    (arg : Nat) (w : World σ) : Outcome × World σ :=
  let (stack, w1) := malloc env PGSIZE w
  if stack = 0 then
    (Outcome.returned (-1), w1)
  else
    let (ret, w2) := clone env (ptr_add stack PGSIZE) w1
    if ret = 0 then
      match call_routine start_routine arg w2 with
      | Except.ok w3 =>
        let w4 := exit 0 w3
        (Outcome.exited 0, w4)
      | Except.error stopped => stopped
    else if ret > 0 then
      (Outcome.returned 0, w2)
    else
      let w3 := free stack w2
      (Outcome.returned (-1), w3)

/-- The calls logged between world `w` and a later world `w'`. -/
def emitted {σ : Type} (w w' : World σ) : List Event :=
  w'.trace.drop w.trace.length

/-- The sizes of the `malloc` requests in a log, in order. -/
def mallocCalls : List Event → List Nat
  | [] => []
  | Event.malloc n :: es => n :: mallocCalls es
  | _ :: es => mallocCalls es

/-- The stack addresses of the `clone` calls in a log, in order. -/
def cloneCalls : List Event → List Nat
  | [] => []
  | Event.clone s :: es => s :: cloneCalls es
  | _ :: es => cloneCalls es

/-- The arguments of the entry-routine invocations in a log, in order. -/
def runCalls : List Event → List Nat
  | [] => []
  | Event.run a :: es => a :: runCalls es
  | _ :: es => runCalls es

/-- The statuses of the `exit` calls in a log, in order. -/
def exitCalls : List Event → List Int
  | [] => []
  | Event.exit s :: es => s :: exitCalls es
  | _ :: es => exitCalls es

/-- The pointers of the `free` calls in a log, in order. -/
def freeCalls : List Event → List Nat
  | [] => []
  | Event.free p :: es => p :: freeCalls es
  | _ :: es => freeCalls es

/-- The number of blocks the tracking allocator reports outstanding. -/
def outstanding {σ : Type} (w : World σ) : Nat := w.heap.length

/-! ## SpinLock: `lock_init`, `lock_acquire`, `lock_release` -/

/-- The type `lock_t` of `user/thread.h`: a single `uint` word. -/
structure lock_t where
  locked : Nat
  deriving DecidableEq, Repr

/-- Width in bits of the `uint` word of a lock. -/
def UINT_BITS : Nat := 32

/-- The function `lock_init`: `lock->locked = 0`. -/
def lock_init (lock : lock_t) : lock_t :=
  { lock with locked := 0 }

/-- The builtin `__sync_lock_test_and_set(&lock->locked, v)`: atomically
stores `v` in the word and returns the value the word held before. -/
def __sync_lock_test_and_set (lock : lock_t) (v : Nat) : Nat × lock_t :=
  (lock.locked, { lock with locked := v % 2 ^ UINT_BITS })

/-- The builtin `__sync_lock_release(&lock->locked)`: atomically stores 0. -/
def __sync_lock_release (lock : lock_t) : lock_t :=
  { lock with locked := 0 }

/-- What a run of `lock_acquire` has done after a bounded number of exchange
attempts: the lock word, the previous values its exchanges returned, in
order, and whether the loop has ended (the function returned). -/
structure AcquireRun where
  lock : lock_t
  observed : List Nat
  returned : Bool
  deriving DecidableEq, Repr

/-- The function `lock_acquire`, when no other context touches the lock:
`while(__sync_lock_test_and_set(&lock->locked, 1) != 0) ;` run for at most
`attempts` exchanges. -/
def lock_acquire : (attempts : Nat) → lock_t → AcquireRun
  | 0, lock => { lock := lock, observed := [], returned := false }
  | attempts + 1, lock =>
    let (old, lock1) := __sync_lock_test_and_set lock 1
    if old ≠ 0 then
      let r := lock_acquire attempts lock1
      { r with observed := old :: r.observed }
    else
      { lock := lock1, observed := [old], returned := true }

/-- The number of exchange attempts of a run that failed (observed a
non-zero previous value). -/
def failedAttempts (r : AcquireRun) : Nat :=
  (r.observed.filter (fun v => v ≠ 0)).length

/-- The function `lock_release`. -/
def lock_release (lock : lock_t) : lock_t :=
  __sync_lock_release lock

/-- One atomic step on a lock word by execution context `ctx`: the store of
`lock_init`, one test-and-set exchange of the loop of `lock_acquire`, or the
store of `lock_release`. -/
inductive LockOp where
  | init (ctx : Nat)
  | xchg (ctx : Nat)
  | release (ctx : Nat)
  deriving DecidableEq, Repr

/-- Whether a step is the store of `lock_release`. -/
def LockOp.isRelease : LockOp → Bool
  | LockOp.release _ => true
  | _ => false

/-- Whether a step is the store of `lock_init`. -/
def LockOp.isInit : LockOp → Bool
  | LockOp.init _ => true
  | _ => false

/-- Whether a step is the exchange of `lock_acquire`. -/
def LockOp.isXchg : LockOp → Bool
  | LockOp.xchg _ => true
  | _ => false

/-- The effect of one atomic step: the new lock word and, for an exchange,
the previous value it returned. -/
def lock_step (lock : lock_t) : LockOp → lock_t × Option Nat
  | LockOp.init _ => (lock_init lock, none)
  | LockOp.xchg _ => ((__sync_lock_test_and_set lock 1).2, some (__sync_lock_test_and_set lock 1).1)
  | LockOp.release _ => (lock_release lock, none)

/-- The lock after a sequence of atomic steps. -/
def lock_run (lock : lock_t) : List LockOp → lock_t
  | [] => lock
  | op :: ops => lock_run (lock_step lock op).1 ops

/-- The previous values returned by the exchanges of a sequence of atomic
steps, in order. -/
def observations (lock : lock_t) : List LockOp → List Nat
  | [] => []
  | op :: ops =>
    match (lock_step lock op).2 with
    | some v => v :: observations (lock_step lock op).1 ops
    | none => observations (lock_step lock op).1 ops

/-- The contexts whose exchange returned 0 (their `lock_acquire` succeeded)
during a sequence of atomic steps, in order. -/
def winners (lock : lock_t) : List LockOp → List Nat
  | [] => []
  | LockOp.xchg c :: ops =>
    if (__sync_lock_test_and_set lock 1).1 = 0 then
      c :: winners (lock_step lock (LockOp.xchg c)).1 ops
    else
      winners (lock_step lock (LockOp.xchg c)).1 ops
  | op :: ops => winners (lock_step lock op).1 ops

/-! ## Contexts incrementing a shared counter under the lock

The client of the mutual-exclusion property: `n` execution contexts share a
lock and a counter, and each runs
`lock_acquire(&l); tmp = counter; counter = tmp + 1; lock_release(&l);`.
The client is not part of `user/thread.c`; its lock operations are the ones
embedded above. The scheduler interleaves the contexts one atomic step at a
time, in any order, and every step sees the memory left by the step before
it. -/

/-- Where a worker context stands in
`lock_acquire(&l); tmp = counter; counter = tmp + 1; lock_release(&l);`. -/
inductive PC where
  | acquire
  | read
  | write
  | release
  | done
  deriving DecidableEq, Repr

/-- A worker context: its program point and its private copy of the counter. -/
structure Ctx where
  pc : PC
  tmp : Nat
  deriving DecidableEq, Repr

/-- The shared address space of the workers and the workers themselves. -/
structure Shared where
  lock : lock_t
  counter : Nat
  ctxs : List Ctx
  deriving DecidableEq, Repr

/-- One step of worker `i`, chosen by the scheduler: one exchange of the loop
of `lock_acquire`, the read of the counter, the write of the counter, or
`lock_release`. A finished or absent worker does nothing. -/
def worker_step (s : Shared) (i : Nat) : Shared :=
  match s.ctxs[i]? with
  | none => s
  | some t =>
    match t.pc with
    | PC.acquire =>
      let (old, lock1) := __sync_lock_test_and_set s.lock 1
      if old ≠ 0 then
        { s with lock := lock1 }
      else
        { s with lock := lock1, ctxs := s.ctxs.set i { t with pc := PC.read } }
    | PC.read =>
      { s with ctxs := s.ctxs.set i { pc := PC.write, tmp := s.counter } }
    | PC.write =>
      { s with counter := t.tmp + 1, ctxs := s.ctxs.set i { t with pc := PC.release } }
    | PC.release =>
      { s with lock := lock_release s.lock, ctxs := s.ctxs.set i { t with pc := PC.done } }
    | PC.done => s

/-- The state after the scheduler has run the workers in the order `sched`. -/
def workers_run (s : Shared) : List Nat → Shared
  | [] => s
  | i :: sched => workers_run (worker_step s i) sched

/-- The start state: `lock_init` has run on the lock, the counter holds
`c0`, and `n` workers are about to call `lock_acquire`. -/
def workers_start (lock : lock_t) (c0 n : Nat) : Shared :=
  { lock := lock_init lock, counter := c0, ctxs := List.replicate n { pc := PC.acquire, tmp := 0 } }

/-- Whether every worker has finished. -/
def all_done (s : Shared) : Bool :=
  s.ctxs.all (fun t => t.pc = PC.done)

/-- Whether a worker is inside the critical section (it has won the lock and
not yet released it). -/
def Ctx.inCS (t : Ctx) : Bool :=
  t.pc = PC.read || t.pc = PC.write || t.pc = PC.release

/-- Whether a worker has written its increment to the counter. -/
def Ctx.wrote (t : Ctx) : Bool :=
  t.pc = PC.release || t.pc = PC.done

/-- The invariant of the workers' runs from a counter value `c0`: the lock
word counts the workers in the critical section and is at most 1, the counter
is `c0` plus the number of workers that have written, and a worker about to
write holds the current counter value. -/
def WorkersInv (c0 n : Nat) (s : Shared) : Prop :=
  s.ctxs.length = n ∧
  s.lock.locked = s.ctxs.countP Ctx.inCS ∧
  s.lock.locked ≤ 1 ∧
  s.counter = c0 + s.ctxs.countP Ctx.wrote ∧
  ∀ t ∈ s.ctxs, t.pc = PC.write → t.tmp = s.counter

/-- The schedule that runs workers `k`, `k + 1`, ... (`m` of them) one after
the other, four steps each. -/
def sequential (k : Nat) : Nat → List Nat
  | 0 => []
  | m + 1 => k :: k :: k :: k :: sequential (k + 1) m

/-! ### Concrete collaborators used to exercise each path -/

/-- An allocator that is out of memory. -/
def envNoMemory : Env := { malloc := fun _ => 0, clone := fun _ => 5 }

/-- A kernel that refuses to create the context. -/
def envCloneFails : Env := { malloc := fun _ => 0x3000, clone := fun _ => -1 }

/-- The child side of a successful `clone`. -/
def envChild : Env := { malloc := fun _ => 0x3000, clone := fun _ => 0 }

/-- The parent side of a successful `clone`, which returns the child's id. -/
def envParent : Env := { malloc := fun _ => 0x3000, clone := fun _ => 4 }

/-- An entry routine that adds its argument to a shared number and returns. -/
def addArg (arg : Nat) (mem : Nat) : RoutineEnd Nat := RoutineEnd.returns (mem + arg)

/-- An entry routine that never ends (`for(;;) ;`). -/
def spinForever (_arg : Nat) (_mem : Nat) : RoutineEnd Nat := RoutineEnd.spins

/-- An entry routine that adds its argument to a shared number and then calls
`exit(3)` itself. -/
def addArgThenExit (arg : Nat) (mem : Nat) : RoutineEnd Nat := RoutineEnd.exits 3 (mem + arg)

/-- A world with one outstanding block and an empty log. -/
def world0 : World Nat := { mem := 10, heap := [0x2000], trace := [] }

/-! ## Theorems -/

/-! ### Results of `thread_create` on each path -/

lemma emitted_append {σ : Type} (w w' : World σ) (es : List Event)
    (h : w'.trace = w.trace ++ es) : emitted w w' = es := by
  simp [emitted, h]

lemma thread_create_null {σ : Type} (env : Env) (start_routine : Nat → σ → RoutineEnd σ)
    (arg : Nat) (w : World σ) (hfail : env.malloc PGSIZE = 0) :
    thread_create env start_routine arg w =
      (Outcome.returned (-1), { w with trace := w.trace ++ [Event.malloc PGSIZE] }) := by
  simp [thread_create, malloc, hfail]

lemma thread_create_child {σ : Type} (env : Env) (start_routine : Nat → σ → RoutineEnd σ)
    (arg : Nat) (w : World σ) (hok : env.malloc PGSIZE ≠ 0)
    (hret : env.clone (ptr_add (env.malloc PGSIZE) PGSIZE) = 0) (m : σ)
    (hend : start_routine arg w.mem = RoutineEnd.returns m) :
    thread_create env start_routine arg w =
      (Outcome.exited 0,
        { mem := m
          heap := env.malloc PGSIZE :: w.heap
          trace := w.trace ++ [Event.malloc PGSIZE,
            Event.clone (ptr_add (env.malloc PGSIZE) PGSIZE), Event.run arg, Event.exit 0] }) := by
  simp [thread_create, malloc, clone, call_routine, exit, hok, hret, hend]

lemma thread_create_child_exits {σ : Type} (env : Env)
    (start_routine : Nat → σ → RoutineEnd σ) (arg : Nat) (w : World σ)
    (hok : env.malloc PGSIZE ≠ 0)
    (hret : env.clone (ptr_add (env.malloc PGSIZE) PGSIZE) = 0) (status : Int) (m : σ)
    (hend : start_routine arg w.mem = RoutineEnd.exits status m) :
    thread_create env start_routine arg w =
      (Outcome.exited status,
        { mem := m
          heap := env.malloc PGSIZE :: w.heap
          trace := w.trace ++ [Event.malloc PGSIZE,
            Event.clone (ptr_add (env.malloc PGSIZE) PGSIZE), Event.run arg,
            Event.exit status] }) := by
  simp [thread_create, malloc, clone, call_routine, exit, hok, hret, hend]

lemma thread_create_child_spins {σ : Type} (env : Env)
    (start_routine : Nat → σ → RoutineEnd σ) (arg : Nat) (w : World σ)
    (hok : env.malloc PGSIZE ≠ 0)
    (hret : env.clone (ptr_add (env.malloc PGSIZE) PGSIZE) = 0)
    (hend : start_routine arg w.mem = RoutineEnd.spins) :
    thread_create env start_routine arg w =
      (Outcome.diverged,
        { mem := w.mem
          heap := env.malloc PGSIZE :: w.heap
          trace := w.trace ++ [Event.malloc PGSIZE,
            Event.clone (ptr_add (env.malloc PGSIZE) PGSIZE), Event.run arg] }) := by
  simp [thread_create, malloc, clone, call_routine, hok, hret, hend]

/-- On the child path, whatever the entry routine does: the calls before the
invocation, the single invocation, no `free`, no value returned, and the
block still outstanding. -/
lemma thread_create_child_any {σ : Type} (env : Env)
    (start_routine : Nat → σ → RoutineEnd σ) (arg : Nat) (w : World σ)
    (hok : env.malloc PGSIZE ≠ 0)
    (hret : env.clone (ptr_add (env.malloc PGSIZE) PGSIZE) = 0) :
    mallocCalls (emitted w (thread_create env start_routine arg w).2) = [PGSIZE] ∧
    cloneCalls (emitted w (thread_create env start_routine arg w).2)
      = [ptr_add (env.malloc PGSIZE) PGSIZE] ∧
    runCalls (emitted w (thread_create env start_routine arg w).2) = [arg] ∧
    freeCalls (emitted w (thread_create env start_routine arg w).2) = [] ∧
    (∀ v : Int, (thread_create env start_routine arg w).1 ≠ Outcome.returned v) ∧
    (thread_create env start_routine arg w).2.heap = env.malloc PGSIZE :: w.heap := by
  cases hend : start_routine arg w.mem with
  | returns m =>
    rw [thread_create_child env start_routine arg w hok hret m hend,
      emitted_append w _ _ rfl]
    simp [mallocCalls, cloneCalls, runCalls, freeCalls]
  | exits status m =>
    rw [thread_create_child_exits env start_routine arg w hok hret status m hend,
      emitted_append w _ _ rfl]
    simp [mallocCalls, cloneCalls, runCalls, freeCalls]
  | spins =>
    rw [thread_create_child_spins env start_routine arg w hok hret hend,
      emitted_append w _ _ rfl]
    simp [mallocCalls, cloneCalls, runCalls, freeCalls]

lemma thread_create_parent {σ : Type} (env : Env) (start_routine : Nat → σ → RoutineEnd σ)
    (arg : Nat) (w : World σ) (hok : env.malloc PGSIZE ≠ 0)
    (hret : 0 < env.clone (ptr_add (env.malloc PGSIZE) PGSIZE)) :
    thread_create env start_routine arg w =
      (Outcome.returned 0,
        { mem := w.mem
          heap := env.malloc PGSIZE :: w.heap
          trace := w.trace ++ [Event.malloc PGSIZE,
            Event.clone (ptr_add (env.malloc PGSIZE) PGSIZE)] }) := by
  have hne : env.clone (ptr_add (env.malloc PGSIZE) PGSIZE) ≠ 0 := by omega
  simp [thread_create, malloc, clone, hok, hret, hne]

lemma thread_create_clone_failure {σ : Type} (env : Env) (start_routine : Nat → σ → RoutineEnd σ)
    (arg : Nat) (w : World σ) (hok : env.malloc PGSIZE ≠ 0)
    (hret : env.clone (ptr_add (env.malloc PGSIZE) PGSIZE) < 0) :
    thread_create env start_routine arg w =
      (Outcome.returned (-1),
        { mem := w.mem
          heap := w.heap
          trace := w.trace ++ [Event.malloc PGSIZE,
            Event.clone (ptr_add (env.malloc PGSIZE) PGSIZE),
            Event.free (env.malloc PGSIZE)] }) := by
  have hne : env.clone (ptr_add (env.malloc PGSIZE) PGSIZE) ≠ 0 := by omega
  have hnp : ¬ 0 < env.clone (ptr_add (env.malloc PGSIZE) PGSIZE) := by omega
  simp [thread_create, malloc, clone, free, hok, hne, hnp]

lemma runCalls_thread_create {σ : Type} (env : Env) (start_routine : Nat → σ → RoutineEnd σ)
    (arg : Nat) (w : World σ) :
    (runCalls (emitted w (thread_create env start_routine arg w).2)).length ≤ 1 ∧
    (runCalls (emitted w (thread_create env start_routine arg w).2) ≠ [] →
      env.malloc PGSIZE ≠ 0 ∧ env.clone (ptr_add (env.malloc PGSIZE) PGSIZE) = 0) := by
  by_cases hok : env.malloc PGSIZE = 0
  · rw [thread_create_null env start_routine arg w hok, emitted_append w _ _ rfl]
    simp [runCalls]
  · rcases lt_trichotomy (env.clone (ptr_add (env.malloc PGSIZE) PGSIZE)) 0 with h | h | h
    · rw [thread_create_clone_failure env start_routine arg w hok h, emitted_append w _ _ rfl]
      simp [runCalls]
    · have hc := (thread_create_child_any env start_routine arg w hok h).2.2.1
      simp [hc, hok, h]
    · rw [thread_create_parent env start_routine arg w hok h, emitted_append w _ _ rfl]
      simp [runCalls]

/-! ### The claims about `thread_create` -/

/-- C1: for every entry routine and argument, when `malloc` returns 0 the
call `thread_create` returns -1, and it calls neither `clone`, nor `free`, nor
the entry routine (the shared memory is as before). -/
theorem thread_create_alloc_failure {σ : Type} (env : Env) (start_routine : Nat → σ → RoutineEnd σ)
    (arg : Nat) (w : World σ) (hfail : env.malloc PGSIZE = 0) :
    (thread_create env start_routine arg w).1 = Outcome.returned (-1) ∧
    cloneCalls (emitted w (thread_create env start_routine arg w).2) = [] ∧
    freeCalls (emitted w (thread_create env start_routine arg w).2) = [] ∧
    runCalls (emitted w (thread_create env start_routine arg w).2) = [] ∧
    (thread_create env start_routine arg w).2.mem = w.mem := by
  rw [thread_create_null env start_routine arg w hfail, emitted_append w _ _ rfl]
  simp [cloneCalls, freeCalls, runCalls]

/-- C1 at an allocator that is out of memory. -/
theorem thread_create_alloc_failure_witness :
    envNoMemory.malloc PGSIZE = 0 ∧
    (thread_create envNoMemory addArg 7 world0).1 = Outcome.returned (-1) ∧
    cloneCalls (emitted world0 (thread_create envNoMemory addArg 7 world0).2) = [] ∧
    freeCalls (emitted world0 (thread_create envNoMemory addArg 7 world0).2) = [] ∧
    runCalls (emitted world0 (thread_create envNoMemory addArg 7 world0).2) = [] ∧
    (thread_create envNoMemory addArg 7 world0).2.mem = world0.mem :=
  ⟨rfl, thread_create_alloc_failure envNoMemory addArg 7 world0 rfl⟩

/-- C2: for every entry routine and argument, when `malloc` succeeds and
`clone` returns a negative value, `thread_create` returns -1, calls `free`
exactly once, on the pointer `malloc` returned, so that the allocator's
outstanding blocks are those from before the call (none, if there were none),
and never calls the entry routine. -/
theorem thread_create_clone_error {σ : Type} (env : Env) (start_routine : Nat → σ → RoutineEnd σ)
    (arg : Nat) (w : World σ) (hok : env.malloc PGSIZE ≠ 0)
    (hret : env.clone (ptr_add (env.malloc PGSIZE) PGSIZE) < 0) :
    (thread_create env start_routine arg w).1 = Outcome.returned (-1) ∧
    freeCalls (emitted w (thread_create env start_routine arg w).2) = [env.malloc PGSIZE] ∧
    (thread_create env start_routine arg w).2.heap = w.heap ∧
    (outstanding w = 0 → outstanding (thread_create env start_routine arg w).2 = 0) ∧
    runCalls (emitted w (thread_create env start_routine arg w).2) = [] ∧
    (thread_create env start_routine arg w).2.mem = w.mem := by
  rw [thread_create_clone_failure env start_routine arg w hok hret, emitted_append w _ _ rfl]
  simp [freeCalls, runCalls, outstanding]

/-- C2 at a kernel that refuses the context, from an allocator with nothing
outstanding. -/
theorem thread_create_clone_error_witness :
    envCloneFails.malloc PGSIZE ≠ 0 ∧
    envCloneFails.clone (ptr_add (envCloneFails.malloc PGSIZE) PGSIZE) < 0 ∧
    (thread_create envCloneFails addArg 7 { world0 with heap := [] }).1
      = Outcome.returned (-1) ∧
    freeCalls (emitted { world0 with heap := [] }
      (thread_create envCloneFails addArg 7 { world0 with heap := [] }).2) = [0x3000] ∧
    outstanding (thread_create envCloneFails addArg 7 { world0 with heap := [] }).2 = 0 :=
  have h := thread_create_clone_error envCloneFails addArg 7 { world0 with heap := [] }
    (by decide) (by decide)
  ⟨by decide, by decide, h.1, h.2.1, h.2.2.2.1 rfl⟩

/-- C3 as stated fails: with a successful `malloc` and `clone` returning 0,
an entry routine that never ends is invoked once with the supplied argument,
and no call of `exit` follows; the call of `thread_create` does not end in
`exit`. -/
theorem thread_create_child_spinning_routine :
    envChild.malloc PGSIZE ≠ 0 ∧
    envChild.clone (ptr_add (envChild.malloc PGSIZE) PGSIZE) = 0 ∧
    runCalls (emitted world0 (thread_create envChild spinForever 7 world0).2) = [7] ∧
    exitCalls (emitted world0 (thread_create envChild spinForever 7 world0).2) = [] ∧
    exitCalls (emitted world0 (thread_create envChild spinForever 7 world0).2) ≠ [0] ∧
    (thread_create envChild spinForever 7 world0).1 = Outcome.diverged := by
  decide

/-- On the child path an entry routine that calls `exit(3)` itself ends the
context with that call: the `exit(0)` of `thread_create` is not reached. -/
lemma thread_create_child_exiting_routine :
    emitted world0 (thread_create envChild addArgThenExit 7 world0).2 =
      [Event.malloc 4096, Event.clone 0x4000, Event.run 7, Event.exit 3] ∧
    (thread_create envChild addArgThenExit 7 world0).1 = Outcome.exited 3 := by
  decide

/-- C3, amended: for every entry routine and argument, when `malloc` succeeds
and `clone` returns 0, `thread_create` calls the entry routine exactly once,
with the supplied argument, returns no value to its caller and does not free
the stack, which stays outstanding; and when that invocation returns (leaving
the shared memory `m`), `thread_create` then calls `exit` exactly once, after
the invocation, and the context ends there. -/
theorem thread_create_child_path {σ : Type} (env : Env)
    (start_routine : Nat → σ → RoutineEnd σ) (arg : Nat) (w : World σ)
    (hok : env.malloc PGSIZE ≠ 0)
    (hret : env.clone (ptr_add (env.malloc PGSIZE) PGSIZE) = 0) :
    runCalls (emitted w (thread_create env start_routine arg w).2) = [arg] ∧
    (∀ v : Int, (thread_create env start_routine arg w).1 ≠ Outcome.returned v) ∧
    freeCalls (emitted w (thread_create env start_routine arg w).2) = [] ∧
    (thread_create env start_routine arg w).2.heap = env.malloc PGSIZE :: w.heap ∧
    (∀ m : σ, start_routine arg w.mem = RoutineEnd.returns m →
      emitted w (thread_create env start_routine arg w).2 =
        [Event.malloc PGSIZE, Event.clone (ptr_add (env.malloc PGSIZE) PGSIZE),
          Event.run arg, Event.exit 0] ∧
      (thread_create env start_routine arg w).2.mem = m ∧
      exitCalls (emitted w (thread_create env start_routine arg w).2) = [0] ∧
      (thread_create env start_routine arg w).1 = Outcome.exited 0) := by
  obtain ⟨_, _, hrun, hfree, hnoret, hheap⟩ :=
    thread_create_child_any env start_routine arg w hok hret
  refine ⟨hrun, hnoret, hfree, hheap, fun m hend => ?_⟩
  rw [thread_create_child env start_routine arg w hok hret m hend, emitted_append w _ _ rfl]
  simp [exitCalls]

/-- C3, amended, on the child side of a successful `clone`, with a routine
that returns. -/
theorem thread_create_child_path_witness :
    envChild.malloc PGSIZE ≠ 0 ∧
    envChild.clone (ptr_add (envChild.malloc PGSIZE) PGSIZE) = 0 ∧
    addArg 7 world0.mem = RoutineEnd.returns 17 ∧
    runCalls (emitted world0 (thread_create envChild addArg 7 world0).2) = [7] ∧
    emitted world0 (thread_create envChild addArg 7 world0).2 =
      [Event.malloc 4096, Event.clone 0x4000, Event.run 7, Event.exit 0] ∧
    (thread_create envChild addArg 7 world0).2.mem = 17 ∧
    exitCalls (emitted world0 (thread_create envChild addArg 7 world0).2) = [0] ∧
    (thread_create envChild addArg 7 world0).1 = Outcome.exited 0 :=
  have h := thread_create_child_path envChild addArg 7 world0 (by decide) (by decide)
  ⟨by decide, by decide, rfl, h.1, h.2.2.2.2 17 rfl⟩

/-- C4: for every entry routine and argument, when `malloc` succeeds and
`clone` returns a positive value, `thread_create` returns 0, does not free the
stack (it stays outstanding), does not call `exit` and does not call the entry
routine; and whatever `malloc` and `clone` answer, the entry routine is called
at most once, and only when `clone` returned 0. -/
theorem thread_create_parent_path {σ : Type} (env : Env) (start_routine : Nat → σ → RoutineEnd σ)
    (arg : Nat) (w : World σ) (hok : env.malloc PGSIZE ≠ 0)
    (hret : 0 < env.clone (ptr_add (env.malloc PGSIZE) PGSIZE)) :
    (thread_create env start_routine arg w).1 = Outcome.returned 0 ∧
    freeCalls (emitted w (thread_create env start_routine arg w).2) = [] ∧
    (thread_create env start_routine arg w).2.heap = env.malloc PGSIZE :: w.heap ∧
    outstanding (thread_create env start_routine arg w).2 = outstanding w + 1 ∧
    exitCalls (emitted w (thread_create env start_routine arg w).2) = [] ∧
    runCalls (emitted w (thread_create env start_routine arg w).2) = [] ∧
    (thread_create env start_routine arg w).2.mem = w.mem ∧
    (∀ env1 : Env,
      (runCalls (emitted w (thread_create env1 start_routine arg w).2)).length ≤ 1 ∧
      (runCalls (emitted w (thread_create env1 start_routine arg w).2) ≠ [] →
        env1.malloc PGSIZE ≠ 0 ∧ env1.clone (ptr_add (env1.malloc PGSIZE) PGSIZE) = 0)) := by
  refine ⟨?_, ?_, ?_, ?_, ?_, ?_, ?_, fun env1 => runCalls_thread_create env1 start_routine arg w⟩
  all_goals
    rw [thread_create_parent env start_routine arg w hok hret]
    try rw [emitted_append w _ _ rfl]
    try simp [freeCalls, exitCalls, runCalls, outstanding]

/-- C4 on the parent side of a successful `clone`. -/
theorem thread_create_parent_path_witness :
    envParent.malloc PGSIZE ≠ 0 ∧
    0 < envParent.clone (ptr_add (envParent.malloc PGSIZE) PGSIZE) ∧
    (thread_create envParent addArg 7 world0).1 = Outcome.returned 0 ∧
    freeCalls (emitted world0 (thread_create envParent addArg 7 world0).2) = [] ∧
    (thread_create envParent addArg 7 world0).2.heap = [0x3000, 0x2000] :=
  have h := thread_create_parent_path envParent addArg 7 world0 (by decide) (by decide)
  ⟨by decide, by decide, h.1, h.2.1, h.2.2.1⟩

/-- C5: every call of `thread_create` asks the allocator exactly once, for
4096 bytes; when the allocator returns a base address (a non-null pointer)
`clone` is called exactly once, and when the page at that base lies inside the
64-bit address space the address passed to `clone` is the base plus 4096. -/
theorem thread_create_calls {σ : Type} (env : Env) (start_routine : Nat → σ → RoutineEnd σ)
    (arg : Nat) (w : World σ) :
    mallocCalls (emitted w (thread_create env start_routine arg w).2) = [4096] ∧
    (env.malloc 4096 ≠ 0 →
      (cloneCalls (emitted w (thread_create env start_routine arg w).2)).length = 1) ∧
    (env.malloc 4096 ≠ 0 → env.malloc 4096 + 4096 < 2 ^ 64 →
      cloneCalls (emitted w (thread_create env start_routine arg w).2)
        = [env.malloc 4096 + 4096]) := by
  have hpg : PGSIZE = 4096 := rfl
  by_cases hok : env.malloc PGSIZE = 0
  · rw [thread_create_null env start_routine arg w hok, emitted_append w _ _ rfl]
    rw [hpg] at hok
    simp [mallocCalls, hok, hpg]
  · have hmod : ∀ b : Nat, b + 4096 < 2 ^ 64 → ptr_add b PGSIZE = b + 4096 := by
      intro b hb
      simp only [ptr_add, PGSIZE, PTR_BITS]
      exact Nat.mod_eq_of_lt hb
    rcases lt_trichotomy (env.clone (ptr_add (env.malloc PGSIZE) PGSIZE)) 0 with h | h | h
    · rw [thread_create_clone_failure env start_routine arg w hok h, emitted_append w _ _ rfl]
      refine ⟨by simp [mallocCalls, hpg], fun _ => by simp [cloneCalls], fun _ hfit => ?_⟩
      simp [cloneCalls, ← hmod _ hfit, hpg]
    · obtain ⟨hm, hc, _⟩ := thread_create_child_any env start_routine arg w hok h
      rw [hm, hc]
      refine ⟨by simp [hpg], fun _ => by simp, fun _ hfit => ?_⟩
      simp [← hmod _ hfit, hpg]
    · rw [thread_create_parent env start_routine arg w hok h, emitted_append w _ _ rfl]
      refine ⟨by simp [mallocCalls, hpg], fun _ => by simp [cloneCalls], fun _ hfit => ?_⟩
      simp [cloneCalls, ← hmod _ hfit, hpg]

/-- C5 at an allocator that returns the page at 0x3000. -/
theorem thread_create_calls_witness :
    envCloneFails.malloc 4096 ≠ 0 ∧ envCloneFails.malloc 4096 + 4096 < 2 ^ 64 ∧
    mallocCalls (emitted world0 (thread_create envCloneFails addArg 7 world0).2) = [4096] ∧
    cloneCalls (emitted world0 (thread_create envCloneFails addArg 7 world0).2) = [0x4000] :=
  have h := thread_create_calls envCloneFails addArg 7 world0
  ⟨by decide, by decide, h.1, h.2.2 (by decide) (by decide)⟩

/-! ### The lock word under atomic steps -/

lemma test_and_set_one (lock : lock_t) :
    __sync_lock_test_and_set lock 1 = (lock.locked, { locked := 1 }) := by
  simp [__sync_lock_test_and_set, UINT_BITS]

lemma lock_run_append (lock : lock_t) (xs ys : List LockOp) :
    lock_run lock (xs ++ ys) = lock_run (lock_run lock xs) ys := by
  induction xs generalizing lock with
  | nil => rfl
  | cons op xs ih => simp [lock_run, ih]

lemma winners_append (lock : lock_t) (xs ys : List LockOp) :
    winners lock (xs ++ ys) = winners lock xs ++ winners (lock_run lock xs) ys := by
  induction xs generalizing lock with
  | nil => rfl
  | cons op xs ih =>
    cases op with
    | init c => simp [winners, lock_run, ih]
    | xchg c =>
      by_cases h : lock.locked = 0
      · simp [winners, lock_run, ih, test_and_set_one, h]
      · simp [winners, lock_run, ih, test_and_set_one, h]
    | release c => simp [winners, lock_run, ih]

lemma lock_step_locked (lock : lock_t) (op : LockOp) :
    (lock_step lock op).1.locked = if op.isXchg then 1 else 0 := by
  cases op <;>
    simp [lock_step, lock_init, lock_release, __sync_lock_release, test_and_set_one,
      LockOp.isXchg]

lemma lock_run_zero_or_one (lock : lock_t) (ops : List LockOp)
    (h : lock.locked = 0 ∨ lock.locked = 1) :
    (lock_run lock ops).locked = 0 ∨ (lock_run lock ops).locked = 1 := by
  induction ops generalizing lock with
  | nil => exact h
  | cons op ops ih =>
    apply ih
    rw [lock_step_locked]
    by_cases hx : op.isXchg = true <;> simp [hx]

lemma observations_zero_or_one (lock : lock_t) (ops : List LockOp)
    (h : lock.locked = 0 ∨ lock.locked = 1) :
    ∀ v ∈ observations lock ops, v = 0 ∨ v = 1 := by
  induction ops generalizing lock with
  | nil => simp [observations]
  | cons op ops ih =>
    have hnext : (lock_step lock op).1.locked = 0 ∨ (lock_step lock op).1.locked = 1 := by
      rw [lock_step_locked]
      by_cases hx : op.isXchg = true <;> simp [hx]
    cases op with
    | init c =>
      simpa [observations, lock_step] using ih _ hnext
    | xchg c =>
      intro v hv
      simp only [observations, lock_step, test_and_set_one, List.mem_cons] at hv
      rcases hv with hv | hv
      · rw [hv]; exact h
      · exact ih { locked := 1 } (Or.inr rfl) v hv
    | release c =>
      simpa [observations, lock_step] using ih _ hnext

lemma spin_while_locked (lock : lock_t) (h : lock.locked = 1) (ops : List LockOp)
    (hx : ∀ op ∈ ops, op.isXchg = true) :
    observations lock ops = List.replicate ops.length 1 ∧
    (lock_run lock ops).locked = 1 ∧ winners lock ops = [] := by
  induction ops generalizing lock with
  | nil => simp [observations, lock_run, winners, h]
  | cons op ops ih =>
    have hop := hx op (List.mem_cons_self _ _)
    have hrest : ∀ o ∈ ops, o.isXchg = true := fun o ho => hx o (List.mem_cons_of_mem _ ho)
    cases op with
    | init c => simp [LockOp.isXchg] at hop
    | release c => simp [LockOp.isXchg] at hop
    | xchg c =>
      have ih1 := ih { locked := 1 } rfl hrest
      simp [observations, lock_run, winners, lock_step, test_and_set_one, h, ih1,
        List.replicate_succ]

lemma winners_le_one (lock : lock_t) (ops : List LockOp)
    (hx : ∀ op ∈ ops, op.isXchg = true) : (winners lock ops).length ≤ 1 := by
  cases ops with
  | nil => simp [winners]
  | cons op ops =>
    have hop := hx op (List.mem_cons_self _ _)
    have hrest : ∀ o ∈ ops, o.isXchg = true := fun o ho => hx o (List.mem_cons_of_mem _ ho)
    cases op with
    | init c => simp [LockOp.isXchg] at hop
    | release c => simp [LockOp.isXchg] at hop
    | xchg c =>
      have h1 := (spin_while_locked { locked := 1 } rfl ops hrest).2.2
      by_cases h0 : lock.locked = 0
      · simp [winners, lock_step, test_and_set_one, h0, h1]
      · simp [winners, lock_step, test_and_set_one, h0, h1]

lemma lock_acquire_locked (n : Nat) (lock : lock_t) (h : lock.locked = 1) :
    lock_acquire n lock
      = { lock := lock, observed := List.replicate n 1, returned := false } := by
  induction n with
  | zero => simp [lock_acquire]
  | succ n ih =>
    have hl : lock = { locked := 1 } := by cases lock; simp_all
    subst hl
    simp [lock_acquire, test_and_set_one, List.replicate_succ] at ih ⊢
    simp [ih]

/-! ### The claims about the lock word -/

/-- C6: whatever the word of a lock held, `lock_init` followed at once by
`lock_acquire` returns after its first exchange: that exchange observes 0, no
exchange attempt fails, and the lock word is left at 1. -/
theorem lock_init_then_acquire (lock : lock_t) (attempts : Nat) :
    (lock_acquire (attempts + 1) (lock_init lock)).returned = true ∧
    (lock_acquire (attempts + 1) (lock_init lock)).observed = [0] ∧
    failedAttempts (lock_acquire (attempts + 1) (lock_init lock)) = 0 ∧
    (lock_acquire (attempts + 1) (lock_init lock)).lock.locked = 1 := by
  simp [lock_acquire, lock_init, test_and_set_one, failedAttempts]

/-- C7: in every sequence of exchange and release steps on one lock word, by
any contexts, the steps between two consecutive release steps hold at most one
exchange that observes 0. -/
theorem one_winner_between_releases (lock : lock_t) (pre mid post : List LockOp)
    (c1 c2 : Nat)
    (hops : ∀ op ∈ pre ++ LockOp.release c1 :: (mid ++ LockOp.release c2 :: post),
      op.isXchg = true ∨ op.isRelease = true)
    (hmid : ∀ op ∈ mid, op.isRelease = false) :
    winners lock (pre ++ LockOp.release c1 :: (mid ++ LockOp.release c2 :: post))
      = winners lock pre ++ winners (lock_run lock (pre ++ [LockOp.release c1])) mid
        ++ winners (lock_run lock (pre ++ LockOp.release c1 :: (mid ++ [LockOp.release c2])))
            post ∧
    (winners (lock_run lock (pre ++ [LockOp.release c1])) mid).length ≤ 1 := by
  constructor
  · have e1 : pre ++ LockOp.release c1 :: (mid ++ LockOp.release c2 :: post)
        = (pre ++ [LockOp.release c1]) ++ (mid ++ ([LockOp.release c2] ++ post)) := by simp
    have e2 : pre ++ LockOp.release c1 :: (mid ++ [LockOp.release c2])
        = (pre ++ [LockOp.release c1]) ++ (mid ++ [LockOp.release c2]) := by simp
    rw [e1, e2, winners_append, winners_append lock pre, winners_append _ mid,
      winners_append _ [LockOp.release c2], lock_run_append _ _ (mid ++ _),
      lock_run_append _ mid]
    simp [winners]
  · apply winners_le_one
    intro op hop
    have h1 := hops op (by simp [hop])
    have h2 := hmid op hop
    rcases h1 with h1 | h1
    · exact h1
    · rw [h2] at h1; exact absurd h1 (by decide)

/-- C7 on two contexts contending twice. -/
theorem one_winner_between_releases_witness :
    (∀ op ∈ [LockOp.xchg 1] ++ LockOp.release 1 ::
        ([LockOp.xchg 2, LockOp.xchg 1, LockOp.xchg 2] ++ LockOp.release 2 :: [LockOp.xchg 1]),
      op.isXchg = true ∨ op.isRelease = true) ∧
    (∀ op ∈ [LockOp.xchg 2, LockOp.xchg 1, LockOp.xchg 2], op.isRelease = false) ∧
    (winners (lock_run { locked := 0 } ([LockOp.xchg 1] ++ [LockOp.release 1]))
      [LockOp.xchg 2, LockOp.xchg 1, LockOp.xchg 2]).length ≤ 1 :=
  ⟨by decide, by decide,
    (one_winner_between_releases { locked := 0 } [LockOp.xchg 1]
      [LockOp.xchg 2, LockOp.xchg 1, LockOp.xchg 2] [LockOp.xchg 1] 1 2
      (by decide) (by decide)).2⟩

/-- C9: once `lock_init` has run, after every finite sequence of `lock_init`,
exchange and `lock_release` steps the lock word is 0 or 1: it is 0 right after
`lock_init` and after `lock_release`, 1 right after every exchange, and every
value an exchange observes is 0 or 1. -/
theorem lock_word_zero_or_one (lock : lock_t) (ops : List LockOp) :
    (lock_init lock).locked = 0 ∧
    ((lock_run (lock_init lock) ops).locked = 0 ∨
      (lock_run (lock_init lock) ops).locked = 1) ∧
    (∀ c, (lock_run (lock_init lock) (ops ++ [LockOp.init c])).locked = 0) ∧
    (∀ c, (lock_run (lock_init lock) (ops ++ [LockOp.release c])).locked = 0) ∧
    (∀ c, (lock_run (lock_init lock) (ops ++ [LockOp.xchg c])).locked = 1) ∧
    (∀ v ∈ observations (lock_init lock) ops, v = 0 ∨ v = 1) := by
  have h0 : (lock_init lock).locked = 0 := rfl
  refine ⟨h0, lock_run_zero_or_one _ ops (Or.inl h0), ?_, ?_, ?_,
    observations_zero_or_one _ ops (Or.inl h0)⟩
  all_goals
    intro c
    rw [lock_run_append]
    simp [lock_run, lock_step_locked, LockOp.isXchg]

/-- C10: when the lock word is 1 and no release or init step occurs,
`lock_acquire` does not return: for every `n`, after `n` exchange attempts the
loop has not ended, each attempt has observed 1 and the word is still 1; the
same holds for the exchanges of any contexts, the holder included, none of
which succeeds. -/
theorem lock_acquire_spins (lock : lock_t) (hlocked : lock.locked = 1) (n : Nat) :
    (lock_acquire n lock).returned = false ∧
    (lock_acquire n lock).observed = List.replicate n 1 ∧
    (lock_acquire n lock).lock.locked = 1 ∧
    (∀ ops : List LockOp, (∀ op ∈ ops, op.isXchg = true) →
      observations lock ops = List.replicate ops.length 1 ∧
      (lock_run lock ops).locked = 1 ∧ winners lock ops = []) := by
  rw [lock_acquire_locked n lock hlocked]
  exact ⟨rfl, rfl, hlocked, fun ops hx => spin_while_locked lock hlocked ops hx⟩

/-- C10 on a held lock, after four attempts. -/
theorem lock_acquire_spins_witness :
    (lock_acquire 1 (lock_init { locked := 9 })).lock.locked = 1 ∧
    (lock_acquire 4 (lock_acquire 1 (lock_init { locked := 9 })).lock).returned = false ∧
    (lock_acquire 4 (lock_acquire 1 (lock_init { locked := 9 })).lock).observed
      = [1, 1, 1, 1] :=
  have h := lock_acquire_spins (lock_acquire 1 (lock_init { locked := 9 })).lock (by decide) 4
  ⟨by decide, h.1, h.2.1⟩

/-! ### Workers incrementing a shared counter -/

lemma countP_set {α : Type} (p : α → Bool) (l : List α) (i : Nat) (t x : α)
    (h : l[i]? = some t) :
    (l.set i x).countP p + (if p t then 1 else 0) = l.countP p + (if p x then 1 else 0) := by
  induction l generalizing i with
  | nil => simp at h
  | cons a l ih =>
    cases i with
    | zero =>
      simp at h
      subst h
      simp [List.countP_cons]
      omega
    | succ i =>
      simp at h
      have := ih i h
      simp [List.countP_cons]
      omega

lemma countP_two_le {α : Type} (p : α → Bool) (l : List α) (a b : α)
    (ha : a ∈ l) (hb : b ∈ l) (hab : a ≠ b) (hpa : p a = true) (hpb : p b = true) :
    2 ≤ l.countP p := by
  induction l with
  | nil => simp at ha
  | cons c l ih =>
    simp only [List.mem_cons] at ha hb
    rw [List.countP_cons]
    rcases ha with ha | ha <;> rcases hb with hb | hb
    · exact absurd (ha.trans hb.symm) hab
    · subst ha
      have : 0 < l.countP p := List.countP_pos_iff.mpr ⟨b, hb, hpb⟩
      rw [if_pos hpa]; omega
    · subst hb
      have : 0 < l.countP p := List.countP_pos_iff.mpr ⟨a, ha, hpa⟩
      rw [if_pos hpb]; omega
    · have := ih ha hb
      omega

lemma workersInv_start (lock : lock_t) (c0 n : Nat) :
    WorkersInv c0 n (workers_start lock c0 n) := by
  refine ⟨by simp [workers_start], ?_, ?_, ?_, ?_⟩
  · simp [workers_start, lock_init, List.countP_replicate, Ctx.inCS]
  · simp [workers_start, lock_init]
  · simp [workers_start, List.countP_replicate, Ctx.wrote]
  · intro t ht hpc
    simp [workers_start, List.mem_replicate] at ht
    rw [ht.2] at hpc
    exact absurd hpc (by decide)

lemma workersInv_step (c0 n : Nat) (s : Shared) (i : Nat) (h : WorkersInv c0 n s) :
    WorkersInv c0 n (worker_step s i) := by
  obtain ⟨hlen, hcs, hle, hcnt, htmp⟩ := h
  unfold worker_step
  cases hi : s.ctxs[i]? with
  | none => exact ⟨hlen, hcs, hle, hcnt, htmp⟩
  | some t =>
    have hmem : t ∈ s.ctxs := List.getElem?_mem hi
    have hlt : i < s.ctxs.length := (List.getElem?_eq_some_iff.mp hi).1
    obtain ⟨pc, tmp⟩ := t
    cases pc with
    | acquire =>
      have e1 := countP_set Ctx.inCS s.ctxs i _ ⟨PC.read, tmp⟩ hi
      have e2 := countP_set Ctx.wrote s.ctxs i _ ⟨PC.read, tmp⟩ hi
      simp [Ctx.inCS, Ctx.wrote] at e1 e2
      by_cases h0 : s.lock.locked = 0
      · simp only [test_and_set_one, h0, ne_eq, not_true_eq_false, if_false]
        refine ⟨by simp [hlen], ?_, ?_, ?_, ?_⟩
        · simp; omega
        · simp
        · simp [e2, hcnt]
        · intro t ht hpc
          rcases List.mem_or_eq_of_mem_set ht with ht | ht
          · exact htmp t ht hpc
          · rw [ht] at hpc; simp at hpc
      · simp only [test_and_set_one, h0, ne_eq, not_false_eq_true, if_true]
        refine ⟨hlen, ?_, ?_, hcnt, htmp⟩
        · simp; omega
        · simp
    | read =>
      show WorkersInv c0 n { s with ctxs := s.ctxs.set i ⟨PC.write, s.counter⟩ }
      have e1 := countP_set Ctx.inCS s.ctxs i _ ⟨PC.write, s.counter⟩ hi
      have e2 := countP_set Ctx.wrote s.ctxs i _ ⟨PC.write, s.counter⟩ hi
      simp [Ctx.inCS, Ctx.wrote] at e1 e2
      refine ⟨by simp [hlen], ?_, hle, ?_, ?_⟩
      · show s.lock.locked = _
        rw [e1]; exact hcs
      · show s.counter = c0 + _
        rw [e2]; exact hcnt
      · intro t ht hpc
        rcases List.mem_or_eq_of_mem_set ht with ht | ht
        · exact htmp t ht hpc
        · rw [ht]
    | write =>
      show WorkersInv c0 n
        { s with counter := tmp + 1, ctxs := s.ctxs.set i ⟨PC.release, tmp⟩ }
      have e1 := countP_set Ctx.inCS s.ctxs i _ ⟨PC.release, tmp⟩ hi
      have e2 := countP_set Ctx.wrote s.ctxs i _ ⟨PC.release, tmp⟩ hi
      simp [Ctx.inCS, Ctx.wrote] at e1 e2
      have htc : tmp = s.counter := htmp _ hmem rfl
      refine ⟨by simp [hlen], ?_, hle, ?_, ?_⟩
      · show s.lock.locked = _
        rw [e1]; exact hcs
      · show tmp + 1 = c0 + _
        rw [e2]; omega
      · intro t ht hpc
        exfalso
        have hx : (⟨PC.release, tmp⟩ : Ctx) ∈ s.ctxs.set i ⟨PC.release, tmp⟩ :=
          List.mem_set _ _ hlt _
        have hne : t ≠ ⟨PC.release, tmp⟩ := by
          intro he; rw [he] at hpc; simp at hpc
        have h2 := countP_two_le Ctx.inCS (s.ctxs.set i ⟨PC.release, tmp⟩) t _ ht hx hne
          (by simp [Ctx.inCS, hpc]) (by simp [Ctx.inCS])
        omega
    | release =>
      show WorkersInv c0 n
        { s with lock := lock_release s.lock, ctxs := s.ctxs.set i ⟨PC.done, tmp⟩ }
      have e1 := countP_set Ctx.inCS s.ctxs i _ ⟨PC.done, tmp⟩ hi
      have e2 := countP_set Ctx.wrote s.ctxs i _ ⟨PC.done, tmp⟩ hi
      simp [Ctx.inCS, Ctx.wrote] at e1 e2
      refine ⟨by simp [hlen], ?_, ?_, ?_, ?_⟩
      · show (lock_release s.lock).locked = _
        simp only [lock_release, __sync_lock_release]; omega
      · simp [lock_release, __sync_lock_release]
      · show s.counter = c0 + _
        rw [e2]; exact hcnt
      · intro t ht hpc
        rcases List.mem_or_eq_of_mem_set ht with ht | ht
        · exact htmp t ht hpc
        · rw [ht] at hpc; simp at hpc
    | done => exact ⟨hlen, hcs, hle, hcnt, htmp⟩

lemma workersInv_run (c0 n : Nat) (s : Shared) (sched : List Nat) (h : WorkersInv c0 n s) :
    WorkersInv c0 n (workers_run s sched) := by
  induction sched generalizing s with
  | nil => exact h
  | cons i sched ih => exact ih _ (workersInv_step c0 n s i h)

lemma countP_wrote_of_all_done (s : Shared) (h : all_done s = true) :
    s.ctxs.countP Ctx.wrote = s.ctxs.length := by
  rw [List.countP_eq_length]
  intro t ht
  have hpc : t.pc = PC.done := by
    simpa using (List.all_eq_true.mp h) t ht
  simp [Ctx.wrote, hpc]

/-- C8: for every number `n` of workers and every interleaving of their
steps, each worker running `lock_acquire` on the shared initialised lock,
reading the shared counter, writing back that value plus 1 and running
`lock_release`: once every worker has finished, the counter is its initial
value plus `n`. -/
theorem counter_after_all_done (n : Nat) (lock : lock_t) (c0 : Nat) (sched : List Nat)
    (hdone : all_done (workers_run (workers_start lock c0 n) sched) = true) :
    (workers_run (workers_start lock c0 n) sched).counter = c0 + n := by
  obtain ⟨hlen, _, _, hcnt, _⟩ :=
    workersInv_run c0 n _ sched (workersInv_start lock c0 n)
  rw [hcnt, countP_wrote_of_all_done _ hdone, hlen]

/-- C8 on three workers, two of which spin while the first holds the lock. -/
theorem counter_after_all_done_witness :
    all_done (workers_run (workers_start { locked := 9 } 10 3)
      [0, 1, 2, 1, 0, 2, 0, 0, 1, 1, 2, 1, 1, 2, 2, 2, 2]) = true ∧
    (workers_run (workers_start { locked := 9 } 10 3)
      [0, 1, 2, 1, 0, 2, 0, 0, 1, 1, 2, 1, 1, 2, 2, 2, 2]).counter = 10 + 3 :=
  ⟨by decide, counter_after_all_done 3 { locked := 9 } 10
    [0, 1, 2, 1, 0, 2, 0, 0, 1, 1, 2, 1, 1, 2, 2, 2, 2] (by decide)⟩

/-! ### Every number of workers can finish -/

lemma getElem?_middle {α : Type} (ds rest : List α) (t : α) :
    (ds ++ t :: rest)[ds.length]? = some t := by
  induction ds with
  | nil => simp
  | cons a ds ih => simpa using ih

lemma set_middle {α : Type} (ds rest : List α) (t x : α) :
    (ds ++ t :: rest).set ds.length x = ds ++ x :: rest := by
  induction ds with
  | nil => rfl
  | cons a ds ih => simp [ih]

lemma worker_alone (lock : lock_t) (hfree : lock.locked = 0) (counter : Nat)
    (ds rest : List Ctx) (sched : List Nat) :
    workers_run (Shared.mk lock counter (ds ++ Ctx.mk PC.acquire 0 :: rest))
      (ds.length :: ds.length :: ds.length :: ds.length :: sched)
    = workers_run (Shared.mk (lock_t.mk 0) (counter + 1) (ds ++ Ctx.mk PC.done counter :: rest))
        sched := by
  have h1 : worker_step (Shared.mk lock counter (ds ++ Ctx.mk PC.acquire 0 :: rest)) ds.length
      = Shared.mk (lock_t.mk 1) counter (ds ++ Ctx.mk PC.read 0 :: rest) := by
    unfold worker_step
    simp only [getElem?_middle, test_and_set_one, set_middle, hfree]
    simp
  have h2 : worker_step (Shared.mk (lock_t.mk 1) counter (ds ++ Ctx.mk PC.read 0 :: rest))
      ds.length
      = Shared.mk (lock_t.mk 1) counter (ds ++ Ctx.mk PC.write counter :: rest) := by
    unfold worker_step
    simp only [getElem?_middle, set_middle]
  have h3 : worker_step
      (Shared.mk (lock_t.mk 1) counter (ds ++ Ctx.mk PC.write counter :: rest)) ds.length
      = Shared.mk (lock_t.mk 1) (counter + 1) (ds ++ Ctx.mk PC.release counter :: rest) := by
    unfold worker_step
    simp only [getElem?_middle, set_middle]
  have h4 : worker_step
      (Shared.mk (lock_t.mk 1) (counter + 1) (ds ++ Ctx.mk PC.release counter :: rest))
      ds.length
      = Shared.mk (lock_t.mk 0) (counter + 1) (ds ++ Ctx.mk PC.done counter :: rest) := by
    unfold worker_step
    simp only [getElem?_middle, set_middle, lock_release, __sync_lock_release]
  simp only [workers_run, h1, h2, h3, h4]

lemma sequential_finishes (m : Nat) (lock : lock_t) (hfree : lock.locked = 0) (counter : Nat)
    (ds : List Ctx) (hds : ∀ d ∈ ds, d.pc = PC.done) :
    all_done (workers_run
      (Shared.mk lock counter (ds ++ List.replicate m (Ctx.mk PC.acquire 0)))
      (sequential ds.length m)) = true := by
  induction m generalizing lock counter ds with
  | zero =>
    simp only [sequential, workers_run, all_done, List.replicate_zero, List.append_nil,
      List.all_eq_true]
    intro d hd
    simp [hds d hd]
  | succ m ih =>
    rw [List.replicate_succ, sequential, worker_alone lock hfree]
    have h := ih { locked := 0 } rfl (counter + 1) (ds ++ [Ctx.mk PC.done counter])
      (by
        intro d hd
        rcases List.mem_append.mp hd with hd | hd
        · exact hds d hd
        · simp at hd; rw [hd])
    simpa using h

/-- For every number of workers there is a schedule after which all of them
have finished: the premise of the counter property can be met. -/
lemma workers_can_finish (n : Nat) (lock : lock_t) (c0 : Nat) :
    all_done (workers_run (workers_start lock c0 n) (sequential 0 n)) = true := by
  have h := sequential_finishes n (lock_init lock) rfl c0 [] (by simp)
  simpa [workers_start] using h

end XV6Thread
